import Mathlib

/-!
Shallow embedding of the Quake3 protocol client (`opengsq/protocols/quake3.py`)
and proofs about it.

The heart of the module is `Quake3.strip_colors`, the Python method

  return re.compile("\\^(X.{6}|.)").sub("", text)

It substitutes the empty string for every non-overlapping, leftmost-first
occurrence of the pattern: a caret followed by either `X` and six
non-newline characters (the alternation's first branch, tried first) or a
single non-newline character.  `stripChars` below is the direct embedding of
that scan over the list of characters of the input string.
-/

namespace Quake3

/-- The regex fragment `.{6}`: six characters, each matched by `.`, which in
Python (without `re.DOTALL`) matches any character except a newline.  Applied
to the characters that follow `"^X"`. -/
def extColor : List Char → Bool
  | c1 :: c2 :: c3 :: c4 :: c5 :: c6 :: _ =>
    c1 ≠ '\n' && c2 ≠ '\n' && c3 ≠ '\n' && c4 ≠ '\n' && c5 ≠ '\n' && c6 ≠ '\n'
  | _ => false

/-- Embedding of one pass of `re.compile("\\^(X.{6}|.)").sub("", text)` over a
character list, with a fuel argument for structural recursion (fuel is always
instantiated with at least the list length, so the `0` case is never hit on
the actual argument): scan left to right; at a caret try the `X.{6}` branch
first, then the single-character branch; on a match drop the matched
characters and resume after the match; otherwise keep the character and
advance.  A caret followed by a newline (or by nothing) starts no match and
is kept; a newline cannot start a match either (the pattern starts with the
caret literal), so the scan may emit both at once. -/
def stripFuel : Nat → List Char → List Char
  | 0, l => l
  | _ + 1, [] => []
  | _ + 1, ['^'] => ['^']
  | f + 1, '^' :: '\n' :: rest => '^' :: '\n' :: stripFuel f rest
  | f + 1, '^' :: 'X' :: c1 :: c2 :: c3 :: c4 :: c5 :: c6 :: rest =>
    if c1 ≠ '\n' ∧ c2 ≠ '\n' ∧ c3 ≠ '\n' ∧ c4 ≠ '\n' ∧ c5 ≠ '\n' ∧ c6 ≠ '\n' then
      stripFuel f rest
    else
      stripFuel f (c1 :: c2 :: c3 :: c4 :: c5 :: c6 :: rest)
  | f + 1, '^' :: _ :: rest => stripFuel f rest
  | f + 1, c :: rest => c :: stripFuel f rest

/-- The scan of `stripFuel` at its intended fuel. -/
def stripChars (l : List Char) : List Char :=
  stripFuel l.length l

/-- Embedding of the static method `Quake3.strip_colors` (quake3.py line 91). -/
def strip_colors (text : String) : String :=
  ⟨stripChars text.data⟩

theorem stripFuel_nil (f : Nat) : stripFuel f [] = [] := by
  cases f <;> rfl

theorem stripFuel_caret (f : Nat) : stripFuel (f + 1) ['^'] = ['^'] := rfl

theorem stripFuel_caret_nl (f : Nat) (l : List Char) :
    stripFuel (f + 1) ('^' :: '\n' :: l) = '^' :: '\n' :: stripFuel f l := rfl

theorem stripFuel_ext (f : Nat) (c1 c2 c3 c4 c5 c6 : Char) (l : List Char)
    (h : c1 ≠ '\n' ∧ c2 ≠ '\n' ∧ c3 ≠ '\n' ∧ c4 ≠ '\n' ∧ c5 ≠ '\n' ∧ c6 ≠ '\n') :
    stripFuel (f + 1) ('^' :: 'X' :: c1 :: c2 :: c3 :: c4 :: c5 :: c6 :: l) = stripFuel f l := by
  simp only [stripFuel]
  rw [if_pos h]

theorem stripFuel_ext_nl (f : Nat) (c1 c2 c3 c4 c5 c6 : Char) (l : List Char)
    (h : ¬(c1 ≠ '\n' ∧ c2 ≠ '\n' ∧ c3 ≠ '\n' ∧ c4 ≠ '\n' ∧ c5 ≠ '\n' ∧ c6 ≠ '\n')) :
    stripFuel (f + 1) ('^' :: 'X' :: c1 :: c2 :: c3 :: c4 :: c5 :: c6 :: l) =
      stripFuel f (c1 :: c2 :: c3 :: c4 :: c5 :: c6 :: l) := by
  simp only [stripFuel]
  rw [if_neg h]

theorem stripFuel_caret_X_short (f : Nat) (l : List Char) (h : l.length < 6) :
    stripFuel (f + 1) ('^' :: 'X' :: l) = stripFuel f l := by
  rcases l with _ | ⟨a, _ | ⟨b, _ | ⟨c, _ | ⟨d, _ | ⟨e, _ | ⟨g, l⟩⟩⟩⟩⟩⟩ <;>
    first
      | rfl
      | (simp only [List.length_cons] at h; omega)

theorem stripFuel_caret_other (f : Nat) (d : Char) (l : List Char)
    (hd1 : d ≠ '\n') (hd2 : d ≠ 'X') :
    stripFuel (f + 1) ('^' :: d :: l) = stripFuel f l := by
  rw [stripFuel.eq_def]
  split
  · simp_all
  · simp_all
  · simp_all
  · simp_all
  · simp_all
  · simp_all
  · rename_i hnil hcons hf heq
    injection heq with hc hr
    exact (hcons d l hc.symm hr.symm).elim

theorem stripFuel_cons (f : Nat) (c : Char) (l : List Char) (h : c ≠ '^') :
    stripFuel (f + 1) (c :: l) = c :: stripFuel f l := by
  rw [stripFuel.eq_def]
  split
  · simp_all
  · simp_all
  · simp_all
  · simp_all
  · simp_all
  · simp_all
  · simp_all

theorem stripChars_def (l : List Char) : stripChars l = stripFuel l.length l := rfl

theorem extColor_iff (c1 c2 c3 c4 c5 c6 : Char) (l : List Char) :
    extColor (c1 :: c2 :: c3 :: c4 :: c5 :: c6 :: l) = true ↔
      (c1 ≠ '\n' ∧ c2 ≠ '\n' ∧ c3 ≠ '\n' ∧ c4 ≠ '\n' ∧ c5 ≠ '\n' ∧ c6 ≠ '\n') := by
  simp [extColor, and_assoc]

theorem stripFuel_caret_X (f : Nat) (l : List Char) :
    stripFuel (f + 1) ('^' :: 'X' :: l) =
      if extColor l = true then stripFuel f (l.drop 6) else stripFuel f l := by
  rcases l with _ | ⟨c1, _ | ⟨c2, _ | ⟨c3, _ | ⟨c4, _ | ⟨c5, _ | ⟨c6, l⟩⟩⟩⟩⟩⟩
  · rfl
  · rfl
  · rfl
  · rfl
  · rfl
  · rfl
  · by_cases h : c1 ≠ '\n' ∧ c2 ≠ '\n' ∧ c3 ≠ '\n' ∧ c4 ≠ '\n' ∧ c5 ≠ '\n' ∧ c6 ≠ '\n'
    · rw [stripFuel_ext f c1 c2 c3 c4 c5 c6 l h,
        if_pos ((extColor_iff c1 c2 c3 c4 c5 c6 l).mpr h)]
      rfl
    · rw [stripFuel_ext_nl f c1 c2 c3 c4 c5 c6 l h,
        if_neg (fun hx => h ((extColor_iff c1 c2 c3 c4 c5 c6 l).mp hx))]

/-- Auxiliary strong induction (on an upper bound of the list length) for
`stripFuel_eq_stripChars`. -/
theorem stripFuel_eq_aux :
    ∀ (n : Nat) (l : List Char) (f : Nat), l.length ≤ n → l.length ≤ f →
      stripFuel f l = stripChars l := by
  intro n
  induction n with
  | zero =>
    intro l f h1 h2
    rcases l with _ | ⟨c, rest⟩
    · rw [stripFuel_nil, stripChars_def, stripFuel_nil]
    · simp at h1
  | succ n ih =>
    intro l f h1 h2
    rcases l with _ | ⟨c, rest⟩
    · rw [stripFuel_nil, stripChars_def, stripFuel_nil]
    · rcases f with _ | f
      · simp at h2
      · simp only [List.length_cons] at h1 h2
        by_cases hc : c = '^'
        · subst hc
          rcases rest with _ | ⟨d, rest2⟩
          · rw [stripFuel_caret]
            rfl
          · simp only [List.length_cons] at h1 h2
            by_cases hd : d = '\n'
            · subst hd
              rw [stripFuel_caret_nl, stripChars_def]
              simp only [List.length_cons]
              rw [stripFuel_caret_nl,
                ih rest2 f (by omega) (by omega),
                ih rest2 (rest2.length + 1) (by omega) (by omega)]
            · by_cases hX : d = 'X'
              · subst hX
                rw [stripFuel_caret_X, stripChars_def]
                simp only [List.length_cons]
                rw [stripFuel_caret_X]
                have hdrop : (rest2.drop 6).length ≤ rest2.length := by
                  rw [List.length_drop]
                  omega
                by_cases hext : extColor rest2 = true
                · rw [if_pos hext, if_pos hext,
                    ih (rest2.drop 6) f (by omega) (by omega),
                    ih (rest2.drop 6) (rest2.length + 1) (by omega) (by omega)]
                · rw [if_neg hext, if_neg hext,
                    ih rest2 f (by omega) (by omega),
                    ih rest2 (rest2.length + 1) (by omega) (by omega)]
              · rw [stripFuel_caret_other f d rest2 hd hX, stripChars_def]
                simp only [List.length_cons]
                rw [stripFuel_caret_other _ d rest2 hd hX,
                  ih rest2 f (by omega) (by omega),
                  ih rest2 (rest2.length + 1) (by omega) (by omega)]
        · rw [stripFuel_cons f c rest hc, stripChars_def]
          simp only [List.length_cons]
          rw [stripFuel_cons _ c rest hc,
            ih rest f (by omega) (by omega),
            ih rest rest.length (by omega) (le_refl _)]

/-- The fuel argument does not matter once it is at least the list length:
`stripFuel` then computes the single regex-substitution pass `stripChars`. -/
theorem stripFuel_eq_stripChars (l : List Char) (f : Nat) (hf : l.length ≤ f) :
    stripFuel f l = stripChars l :=
  stripFuel_eq_aux l.length l f (le_refl _) hf

theorem stripChars_nil : stripChars [] = [] := rfl

theorem stripChars_caret_only : stripChars ['^'] = ['^'] := rfl

theorem stripChars_cons (c : Char) (l : List Char) (h : c ≠ '^') :
    stripChars (c :: l) = c :: stripChars l := by
  rw [stripChars_def]
  simp only [List.length_cons]
  rw [stripFuel_cons _ c l h]
  rfl

theorem stripChars_caret_nl (l : List Char) :
    stripChars ('^' :: '\n' :: l) = '^' :: '\n' :: stripChars l := by
  rw [stripChars_def]
  simp only [List.length_cons]
  rw [stripFuel_caret_nl, stripFuel_eq_stripChars l (l.length + 1) (by omega)]

theorem stripChars_caret_X (l : List Char) :
    stripChars ('^' :: 'X' :: l) =
      if extColor l = true then stripChars (l.drop 6) else stripChars l := by
  rw [stripChars_def]
  simp only [List.length_cons]
  rw [stripFuel_caret_X]
  by_cases hext : extColor l = true
  · rw [if_pos hext, if_pos hext,
      stripFuel_eq_stripChars (l.drop 6) (l.length + 1) (by rw [List.length_drop]; omega)]
  · rw [if_neg hext, if_neg hext,
      stripFuel_eq_stripChars l (l.length + 1) (by omega)]

theorem stripChars_caret_other (d : Char) (l : List Char) (h1 : d ≠ '\n') (h2 : d ≠ 'X') :
    stripChars ('^' :: d :: l) = stripChars l := by
  rw [stripChars_def]
  simp only [List.length_cons]
  rw [stripFuel_caret_other _ d l h1 h2,
    stripFuel_eq_stripChars l (l.length + 1) (by omega)]

/-- Length of the match of the color pattern at the head of the list, `0`
when no match starts there.  Modelled from the spec (§4.4): an occurrence is
"a color-escape marker followed by either exactly one control character or a
7-character extended-color code"; the extended code (the `X` plus six
pattern-matchable characters) is the preferred alternative, and the single
following character must itself be matchable by the pattern (not a newline). -/
def specMatchLen : List Char → Nat
  | [] => 0
  | [_] => 0
  | c :: d :: rest =>
    if c = '^' then
      if d = 'X' ∧ extColor rest = true then 8
      else if d = '\n' then 0
      else 2
    else 0

/-- Modelled from the spec (§4.4 Text Sanitizer): removal of every occurrence
of the color pattern in a single left-to-right pass — at each position, if an
occurrence starts there it is dropped whole and the pass resumes after it,
otherwise the character is kept. -/
def stripSpec : List Char → List Char
  | [] => []
  | c :: rest =>
    if specMatchLen (c :: rest) = 0 then
      c :: stripSpec rest
    else
      stripSpec ((c :: rest).drop (specMatchLen (c :: rest)))
termination_by l => l.length
decreasing_by
  · simp
  · rename_i h
    rw [List.length_drop]
    simp only [List.length_cons]
    omega

/-- Decides that no suffix of the list starts a match of the color pattern. -/
def noMatchAll : List Char → Bool
  | [] => true
  | c :: rest => (specMatchLen (c :: rest) == 0) && noMatchAll rest

/-- The claim's notion of a marker-free string: no occurrence of the caret
marker followed by a character (a caret can only be the very last character). -/
def markerFree : List Char → Bool
  | [] => true
  | [_] => true
  | c :: d :: rest => !(c == '^') && markerFree (d :: rest)

theorem specMatchLen_cons_ne (c : Char) (l : List Char) (h : c ≠ '^') :
    specMatchLen (c :: l) = 0 := by
  rcases l with _ | ⟨d, rest⟩
  · rfl
  · simp [specMatchLen, h]

theorem specMatchLen_caret_nl (l : List Char) : specMatchLen ('^' :: '\n' :: l) = 0 := by
  simp [specMatchLen]

theorem specMatchLen_caret_X_ext (l : List Char) (h : extColor l = true) :
    specMatchLen ('^' :: 'X' :: l) = 8 := by
  simp [specMatchLen, h]

theorem specMatchLen_caret_X_not (l : List Char) (h : ¬ extColor l = true) :
    specMatchLen ('^' :: 'X' :: l) = 2 := by
  simp [specMatchLen, h]

theorem specMatchLen_caret_other (d : Char) (l : List Char)
    (h1 : d ≠ '\n') (h2 : d ≠ 'X') : specMatchLen ('^' :: d :: l) = 2 := by
  simp [specMatchLen, h1, h2]

theorem stripChars_sublist_aux :
    ∀ (n : Nat) (l : List Char), l.length ≤ n → List.Sublist (stripChars l) l := by
  intro n
  induction n with
  | zero =>
    intro l h1
    rcases l with _ | ⟨c, rest⟩
    · exact List.Sublist.refl _
    · simp at h1
  | succ n ih =>
    intro l h1
    rcases l with _ | ⟨c, rest⟩
    · exact List.Sublist.refl _
    · simp only [List.length_cons] at h1
      by_cases hc : c = '^'
      · subst hc
        rcases rest with _ | ⟨d, rest2⟩
        · rw [stripChars_caret_only]
        · simp only [List.length_cons] at h1
          by_cases hd : d = '\n'
          · subst hd
            rw [stripChars_caret_nl]
            exact ((ih rest2 (by omega)).cons₂ '\n').cons₂ '^'
          · by_cases hX : d = 'X'
            · subst hX
              rw [stripChars_caret_X]
              by_cases hext : extColor rest2 = true
              · rw [if_pos hext]
                refine List.Sublist.trans
                  (ih (rest2.drop 6) (by rw [List.length_drop]; omega)) ?_
                exact ((List.drop_sublist 6 rest2).trans
                  (List.sublist_cons_self 'X' rest2)).trans
                  (List.sublist_cons_self '^' ('X' :: rest2))
              · rw [if_neg hext]
                exact ((ih rest2 (by omega)).trans
                  (List.sublist_cons_self 'X' rest2)).trans
                  (List.sublist_cons_self '^' ('X' :: rest2))
            · rw [stripChars_caret_other d rest2 hd hX]
              exact ((ih rest2 (by omega)).trans
                (List.sublist_cons_self d rest2)).trans
                (List.sublist_cons_self '^' (d :: rest2))
      · rw [stripChars_cons c rest hc]
        exact (ih rest (by omega)).cons₂ c

/-- The substitution only deletes characters: its output is a sublist of its
input. -/
theorem stripChars_sublist (l : List Char) : List.Sublist (stripChars l) l :=
  stripChars_sublist_aux l.length l (le_refl _)

theorem noMatchAll_stripChars_aux :
    ∀ (n : Nat) (l : List Char), l.length ≤ n → noMatchAll (stripChars l) = true := by
  intro n
  induction n with
  | zero =>
    intro l h1
    rcases l with _ | ⟨c, rest⟩
    · rfl
    · simp at h1
  | succ n ih =>
    intro l h1
    rcases l with _ | ⟨c, rest⟩
    · rfl
    · simp only [List.length_cons] at h1
      by_cases hc : c = '^'
      · subst hc
        rcases rest with _ | ⟨d, rest2⟩
        · rfl
        · simp only [List.length_cons] at h1
          by_cases hd : d = '\n'
          · subst hd
            rw [stripChars_caret_nl]
            simp only [noMatchAll]
            rw [specMatchLen_caret_nl, specMatchLen_cons_ne '\n' _ (by decide)]
            simp [ih rest2 (by omega)]
          · by_cases hX : d = 'X'
            · subst hX
              rw [stripChars_caret_X]
              by_cases hext : extColor rest2 = true
              · rw [if_pos hext]
                exact ih (rest2.drop 6) (by rw [List.length_drop]; omega)
              · rw [if_neg hext]
                exact ih rest2 (by omega)
            · rw [stripChars_caret_other d rest2 hd hX]
              exact ih rest2 (by omega)
      · rw [stripChars_cons c rest hc]
        simp only [noMatchAll]
        rw [specMatchLen_cons_ne c _ hc]
        simp [ih rest (by omega)]

/-- No occurrence of the color pattern survives in the output of the pass. -/
theorem noMatchAll_stripChars (l : List Char) : noMatchAll (stripChars l) = true :=
  noMatchAll_stripChars_aux l.length l (le_refl _)

theorem stripChars_of_noMatchAll_aux :
    ∀ (n : Nat) (l : List Char), l.length ≤ n → noMatchAll l = true → stripChars l = l := by
  intro n
  induction n with
  | zero =>
    intro l h1 h2
    rcases l with _ | ⟨c, rest⟩
    · rfl
    · simp at h1
  | succ n ih =>
    intro l h1 h2
    rcases l with _ | ⟨c, rest⟩
    · rfl
    · simp only [List.length_cons] at h1
      simp only [noMatchAll, Bool.and_eq_true, beq_iff_eq] at h2
      by_cases hc : c = '^'
      · subst hc
        rcases rest with _ | ⟨d, rest2⟩
        · rfl
        · have hd : d = '\n' := by
            by_contra hd
            by_cases hX : d = 'X'
            · subst hX
              by_cases hext : extColor rest2 = true
              · rw [specMatchLen_caret_X_ext rest2 hext] at h2
                omega
              · rw [specMatchLen_caret_X_not rest2 hext] at h2
                omega
            · rw [specMatchLen_caret_other d rest2 hd hX] at h2
              omega
          subst hd
          rw [stripChars_caret_nl]
          have h3 := h2.2
          simp only [noMatchAll, Bool.and_eq_true, beq_iff_eq] at h3
          rw [ih rest2 (by simp only [List.length_cons] at h1; omega) h3.2]
      · rw [stripChars_cons c rest hc, ih rest (by omega) h2.2]

/-- A list in which no occurrence of the color pattern starts anywhere is left
unchanged by the pass. -/
theorem stripChars_of_noMatchAll (l : List Char) (h : noMatchAll l = true) :
    stripChars l = l :=
  stripChars_of_noMatchAll_aux l.length l (le_refl _) h

/-- The pass is idempotent on character lists. -/
theorem stripChars_idem (l : List Char) : stripChars (stripChars l) = stripChars l :=
  stripChars_of_noMatchAll (stripChars l) (noMatchAll_stripChars l)

theorem noMatchAll_of_markerFree :
    ∀ (l : List Char), markerFree l = true → noMatchAll l = true
  | [], _ => rfl
  | [_], _ => rfl
  | c :: d :: rest, h => by
    simp only [markerFree, Bool.and_eq_true, Bool.not_eq_true', beq_eq_false_iff_ne,
      ne_eq] at h
    simp only [noMatchAll, Bool.and_eq_true, beq_iff_eq]
    refine ⟨specMatchLen_cons_ne c _ h.1, ?_⟩
    have h4 := noMatchAll_of_markerFree (d :: rest) h.2
    simp only [noMatchAll, Bool.and_eq_true, beq_iff_eq] at h4 ⊢
    exact h4

theorem stripSpec_nil : stripSpec [] = [] := by
  simp [stripSpec]

theorem stripSpec_nomatch (c : Char) (rest : List Char)
    (h : specMatchLen (c :: rest) = 0) :
    stripSpec (c :: rest) = c :: stripSpec rest := by
  simp only [stripSpec]
  rw [if_pos h]

theorem stripSpec_match (c : Char) (rest : List Char)
    (h : ¬ specMatchLen (c :: rest) = 0) :
    stripSpec (c :: rest) = stripSpec ((c :: rest).drop (specMatchLen (c :: rest))) := by
  simp only [stripSpec]
  rw [if_neg h]

theorem stripChars_eq_stripSpec_aux :
    ∀ (n : Nat) (l : List Char), l.length ≤ n → stripChars l = stripSpec l := by
  intro n
  induction n with
  | zero =>
    intro l h1
    rcases l with _ | ⟨c, rest⟩
    · rw [stripChars_nil, stripSpec_nil]
    · simp at h1
  | succ n ih =>
    intro l h1
    rcases l with _ | ⟨c, rest⟩
    · rw [stripChars_nil, stripSpec_nil]
    · simp only [List.length_cons] at h1
      by_cases hc : c = '^'
      · subst hc
        rcases rest with _ | ⟨d, rest2⟩
        · rw [stripChars_caret_only,
            stripSpec_nomatch '^' [] (by rfl), stripSpec_nil]
        · simp only [List.length_cons] at h1
          by_cases hd : d = '\n'
          · subst hd
            rw [stripChars_caret_nl,
              stripSpec_nomatch '^' ('\n' :: rest2) (specMatchLen_caret_nl rest2),
              stripSpec_nomatch '\n' rest2 (specMatchLen_cons_ne '\n' rest2 (by decide)),
              ih rest2 (by omega)]
          · by_cases hX : d = 'X'
            · subst hX
              by_cases hext : extColor rest2 = true
              · rw [stripChars_caret_X, if_pos hext,
                  stripSpec_match '^' ('X' :: rest2)
                    (by rw [specMatchLen_caret_X_ext rest2 hext]; omega),
                  specMatchLen_caret_X_ext rest2 hext]
                have hdrop : ('^' :: 'X' :: rest2).drop 8 = rest2.drop 6 := rfl
                rw [hdrop, ih (rest2.drop 6) (by rw [List.length_drop]; omega)]
              · rw [stripChars_caret_X, if_neg hext,
                  stripSpec_match '^' ('X' :: rest2)
                    (by rw [specMatchLen_caret_X_not rest2 hext]; omega),
                  specMatchLen_caret_X_not rest2 hext]
                have hdrop : ('^' :: 'X' :: rest2).drop 2 = rest2 := rfl
                rw [hdrop, ih rest2 (by omega)]
            · rw [stripChars_caret_other d rest2 hd hX,
                stripSpec_match '^' (d :: rest2)
                  (by rw [specMatchLen_caret_other d rest2 hd hX]; omega),
                specMatchLen_caret_other d rest2 hd hX]
              have hdrop : ('^' :: d :: rest2).drop 2 = rest2 := rfl
              rw [hdrop, ih rest2 (by omega)]
      · rw [stripChars_cons c rest hc,
          stripSpec_nomatch c rest (specMatchLen_cons_ne c rest hc),
          ih rest (by omega)]

/-- The source's scan computes exactly the spec-modelled removal pass. -/
theorem stripChars_eq_stripSpec (l : List Char) : stripChars l = stripSpec l :=
  stripChars_eq_stripSpec_aux l.length l (le_refl _)

theorem stripChars_append_caret :
    ∀ (l : List Char), '^' ∉ l → stripChars (l ++ ['^']) = l ++ ['^']
  | [], _ => stripChars_caret_only
  | c :: l, h => by
    have h2 : ¬('^' = c ∨ '^' ∈ l) := fun hor => h (List.mem_cons.mpr hor)
    have hc : c ≠ '^' := fun e => h2 (Or.inl e.symm)
    have hl : '^' ∉ l := fun m => h2 (Or.inr m)
    rw [List.cons_append, stripChars_cons c _ hc, stripChars_append_caret l hl]

theorem stripChars_append_caret_nl :
    ∀ (l : List Char), '^' ∉ l → ∀ (r : List Char),
      stripChars (l ++ '^' :: '\n' :: r) = l ++ '^' :: '\n' :: stripChars r
  | [], _, r => by
    simp only [List.nil_append]
    exact stripChars_caret_nl r
  | c :: l, h, r => by
    have h2 : ¬('^' = c ∨ '^' ∈ l) := fun hor => h (List.mem_cons.mpr hor)
    have hc : c ≠ '^' := fun e => h2 (Or.inl e.symm)
    have hl : '^' ∉ l := fun m => h2 (Or.inr m)
    rw [List.cons_append, stripChars_cons c _ hc, stripChars_append_caret_nl l hl r,
      List.cons_append]

example : strip_colors "^1Red^7Server" = "RedServer" := by decide

/-- Embedding of the decode-pipeline failures: `InvalidPacketException`
(opengsq.exceptions) for a header mismatch, and the truncated-packet error of
the spec's Binary Cursor for a read past the end of the buffer. -/
inductive ProtocolError where
  | invalidPacket (message : String)
  | truncatedPacket (message : String)
deriving DecidableEq

instance exceptDecEq {ε α : Type} [DecidableEq ε] [DecidableEq α] :
    DecidableEq (Except ε α)
  | .error e1, .error e2 =>
    if h : e1 = e2 then isTrue (h ▸ rfl)
    else isFalse (fun hh => h (Except.error.inj hh))
  | .error _, .ok _ => isFalse (fun hh => Except.noConfusion hh)
  | .ok _, .error _ => isFalse (fun hh => Except.noConfusion hh)
  | .ok a1, .ok a2 =>
    if h : a1 = a2 then isTrue (h ▸ rfl)
    else isFalse (fun hh => h (Except.ok.inj hh))

/-- Modelled from the spec: `read_delimited` of the Binary Cursor (§4.1)
consumes characters up to (not including) the next occurrence of the
delimiter, advances past the delimiter, and returns the consumed span with
the remaining buffer; it fails with the truncated-packet error if the
delimiter never occurs (the source's `BinaryReader.read_string` is not among
the sources at hand). -/
def read_delimited (delim : Char) : List Char → Except ProtocolError (String × List Char)
  | [] => .error (.truncatedPacket "delimiter not found before end of buffer")
  | c :: rest =>
    if c = delim then
      .ok ("", rest)
    else
      match read_delimited delim rest with
      | .ok (s, rest2) => .ok (⟨c :: s.data⟩, rest2)
      | .error e => .error e

/-- Modelled from the spec: the Quake-lineage field delimiter `_delimiter1`
(scenario 1 uses the delimiter backslash; the base class setting it is not
among the sources at hand). -/
def delimiter1 : Char := '\\'

/-- Embedding of `self._response_header = "statusResponse\n"` (quake3.py
line 25): the expected header of a `getstatus` reply. -/
def response_header : String := "statusResponse\n"

/-- Embedding of the local constant `response_header = "infoResponse\n"`
inside `get_info` (quake3.py line 38): the expected header of a `getinfo`
reply. -/
def info_response_header : String := "infoResponse\n"

/-- The ordered string-to-string mapping produced by the info decoder (a
Python `dict` in wire order). -/
abbrev InfoMap := List (String × String)

/-- Python-dict assignment `m[k] = v`: updates the value in place when the
key is present, appends the pair otherwise. -/
def mapSet (m : InfoMap) (k v : String) : InfoMap :=
  if m.any (fun p => p.1 == k) then
    m.map (fun p => if p.1 == k then (k, v) else p)
  else
    m ++ [(k, v)]

/-- Python-dict read `m[k]` guarded by `k in m`. -/
def lookupMap (m : InfoMap) (k : String) : Option String :=
  (m.find? (fun p => p.1 == k)).map Prod.snd

/-- Folds raw (key, value) pairs into a Python dict: last write wins on
duplicate keys, insertion order follows wire order. -/
def buildMap (ps : List (String × String)) : InfoMap :=
  ps.foldl (fun m p => mapSet m p.1 p.2) []

/-- Pairs up the token stream as (key, value) pairs; an odd trailing token
with no partner is dropped silently (spec §4.3). -/
def pairUp : List String → List (String × String)
  | k :: v :: rest => (k, v) :: pairUp rest
  | _ => []

/-- Modelled from the spec: `decode_info` (§4.3; the source's
`Quake1._parse_info` is not among the sources at hand) splits the remaining
payload on the field delimiter into tokens, consumes them in (key, value)
pairs, silently drops an odd trailing token, and builds the info map. -/
def parse_info (payload : List Char) : InfoMap :=
  buildMap (pairUp ((payload.splitOn delimiter1).map fun t => (⟨t⟩ : String)))

/-- Embedding of the sanitization step shared by `get_info` and `get_status`
(quake3.py lines 50–51, 72–79): if the display key is present, replace its
value by its color-stripped form; otherwise leave the map alone. -/
def sanitizeField (k : String) (m : InfoMap) : InfoMap :=
  match lookupMap m k with
  | some v => mapSet m k (strip_colors v)
  | none => m

/-- Embedding of `Quake3.get_info` (quake3.py lines 27–53) as a function of
the raw reply characters: read the delimiter-terminated header token, raise
the invalid-packet error with the f-string message
`"Packet header mismatch. Received: ... Expected: ..."` when the token
differs from `info_response_header`, decode the info map, and color-strip the
`hostname` field unless `strip_color` is false. -/
def get_info (response : List Char) (strip_color : Bool) : Except ProtocolError InfoMap :=
  match read_delimited delimiter1 response with
  | .error e => .error e
  | .ok (header, rest) =>
    if header ≠ info_response_header then
      .error (.invalidPacket ("Packet header mismatch. Received: " ++ header ++
        ". Expected: " ++ info_response_header ++ "."))
    else
      let info := parse_info rest
      if ¬ strip_color then .ok info
      else .ok (sanitizeField "hostname" info)

/-- Embedding of the post-parsing part of `Quake3.get_status` (quake3.py
lines 62–81) as a function of the already-parsed info map and player list
(the parsing helpers `_get_response_binary_reader`, `_parse_info`,
`_parse_players` live outside quake3.py): color-strip `sv_hostname` in the
info block and `name` in every player record unless `strip_color` is false. -/
def get_status (info : InfoMap) (players : List InfoMap) (strip_color : Bool) :
    InfoMap × List InfoMap :=
  if ¬ strip_color then (info, players)
  else (sanitizeField "sv_hostname" info, players.map (sanitizeField "name"))

/-- Modelled from the spec: `validate_header` (§4.2; the shared base-protocol
reader that `get_status` goes through is not among the sources at hand) reads
a delimiter-terminated token from the cursor and fails with the
invalid-packet error, quoting received and expected values, if the token does
not equal the expected header exactly. -/
def validate_header (cursor : List Char) (expectedHeader : String) :
    Except ProtocolError (List Char) :=
  match read_delimited delimiter1 cursor with
  | .error e => .error e
  | .ok (h, rest) =>
    if h ≠ expectedHeader then
      .error (.invalidPacket ("Packet header mismatch. Received: " ++ h ++
        ". Expected: " ++ expectedHeader ++ "."))
    else .ok rest

/-- The response bytes of end-to-end scenario 1 (as characters). -/
def scenario1 : List Char := "infoResponse\n\\hostname\\^1Red^7Server\\gametype\\ffa".data

example : read_delimited delimiter1 scenario1 =
    Except.ok ("infoResponse\n", "hostname\\^1Red^7Server\\gametype\\ffa".data) := by
  decide
example : get_info scenario1 true =
    Except.ok [("hostname", "RedServer"), ("gametype", "ffa")] := by decide
example : get_info scenario1 false =
    Except.ok [("hostname", "^1Red^7Server"), ("gametype", "ffa")] := by decide
example : read_delimited delimiter1 ("wrongResponse\n\\".data) =
    Except.ok ("wrongResponse\n", []) := by decide
example : validate_header ("statusResponse\n\\x\\y".data) response_header =
    Except.ok ("x\\y".data) := by decide

theorem get_info_of_read_mismatch (resp : List Char) (header : String) (rest : List Char)
    (b : Bool) (hread : read_delimited delimiter1 resp = Except.ok (header, rest))
    (hne : header ≠ info_response_header) :
    get_info resp b = Except.error (ProtocolError.invalidPacket
      ("Packet header mismatch. Received: " ++ header ++
        ". Expected: " ++ info_response_header ++ ".")) := by
  simp only [get_info, hread]
  rw [if_pos hne]

theorem get_info_ok_shape (resp : List Char) (b : Bool) (header : String) (rest : List Char)
    (hread : read_delimited delimiter1 resp = Except.ok (header, rest))
    (hh : header = info_response_header) :
    get_info resp b = Except.ok
      (if b then sanitizeField "hostname" (parse_info rest) else parse_info rest) := by
  simp only [get_info, hread]
  rw [if_neg (by simp [hh])]
  cases b
  · simp
  · simp

theorem validate_header_mismatch (cursor : List Char) (h : String) (rest : List Char)
    (expected : String) (hread : read_delimited delimiter1 cursor = Except.ok (h, rest))
    (hne : h ≠ expected) :
    validate_header cursor expected = Except.error (ProtocolError.invalidPacket
      ("Packet header mismatch. Received: " ++ h ++
        ". Expected: " ++ expected ++ ".")) := by
  simp only [validate_header, hread]
  rw [if_pos hne]

theorem validate_header_ok (cursor : List Char) (rest : List Char) (expected : String)
    (hread : read_delimited delimiter1 cursor = Except.ok (expected, rest)) :
    validate_header cursor expected = Except.ok rest := by
  simp only [validate_header, hread]
  rw [if_neg (by simp)]

theorem filter_map_update (m : InfoMap) (k v : String) :
    (m.map (fun p => if p.1 == k then (k, v) else p)).filter (fun p => !(p.1 == k)) =
      m.filter (fun p => !(p.1 == k)) := by
  induction m with
  | nil => rfl
  | cons p m ihm =>
    simp only [List.map_cons, List.filter_cons]
    by_cases hp : (p.1 == k) = true
    · have e1 : (if p.1 == k then (k, v) else p) = (k, v) := if_pos hp
      have q1 : (!((k, v).1 == k)) = false := by
        rw [show ((k, v).1 == k) = true from beq_self_eq_true k]
        rfl
      have q2 : (!(p.1 == k)) = false := by
        rw [hp]
        rfl
      rw [e1, q1, q2, if_neg Bool.false_ne_true, if_neg Bool.false_ne_true]
      exact ihm
    · have hb : (p.1 == k) = false := by
        revert hp
        cases p.1 == k <;> simp
      have e1 : (if p.1 == k then (k, v) else p) = p := if_neg hp
      have q2 : (!(p.1 == k)) = true := by
        rw [hb]
        rfl
      rw [e1, q2, if_pos rfl, if_pos rfl, ihm]

theorem filter_append_pair (m : InfoMap) (k v : String) :
    (m ++ [(k, v)]).filter (fun p => !(p.1 == k)) = m.filter (fun p => !(p.1 == k)) := by
  simp [List.filter_append]

theorem mapSet_filter (m : InfoMap) (k v : String) :
    (mapSet m k v).filter (fun p => !(p.1 == k)) = m.filter (fun p => !(p.1 == k)) := by
  unfold mapSet
  by_cases h : m.any (fun p => p.1 == k) = true
  · rw [if_pos h]
    exact filter_map_update m k v
  · rw [if_neg h]
    exact filter_append_pair m k v

theorem map_update_keys (m : InfoMap) (k v : String)
    (h : m.any (fun p => p.1 == k) = true) :
    (mapSet m k v).map Prod.fst = m.map Prod.fst := by
  unfold mapSet
  rw [if_pos h]
  clear h
  induction m with
  | nil => rfl
  | cons p m ihm =>
    simp only [List.map_cons]
    by_cases hp : (p.1 == k) = true
    · have e1 : (if p.1 == k then (k, v) else p) = (k, v) := if_pos hp
      rw [e1, ihm, eq_of_beq hp]
    · have e1 : (if p.1 == k then (k, v) else p) = p := if_neg hp
      rw [e1, ihm]

theorem any_of_lookup_some (m : InfoMap) (k v : String) (h : lookupMap m k = some v) :
    m.any (fun p => p.1 == k) = true := by
  unfold lookupMap at h
  rcases hf : m.find? (fun p => p.1 == k) with _ | p
  · rw [hf] at h
    simp at h
  · have hm := List.mem_of_find?_eq_some hf
    have hp := List.find?_some hf
    simp only [List.any_eq_true]
    exact ⟨p, hm, hp⟩

theorem sanitizeField_keys (k : String) (m : InfoMap) :
    (sanitizeField k m).map Prod.fst = m.map Prod.fst := by
  unfold sanitizeField
  rcases hl : lookupMap m k with _ | v
  · rfl
  · exact map_update_keys m k (strip_colors v) (any_of_lookup_some m k v hl)

theorem sanitizeField_filter (k : String) (m : InfoMap) :
    (sanitizeField k m).filter (fun p => !(p.1 == k)) =
      m.filter (fun p => !(p.1 == k)) := by
  unfold sanitizeField
  rcases hl : lookupMap m k with _ | v
  · rfl
  · exact mapSet_filter m k (strip_colors v)

theorem sanitizeField_of_absent (k : String) (m : InfoMap) (h : lookupMap m k = none) :
    sanitizeField k m = m := by
  unfold sanitizeField
  rw [h]

theorem get_status_strip (info : InfoMap) (players : List InfoMap) :
    get_status info players true =
      (sanitizeField "sv_hostname" info, players.map (sanitizeField "name")) := by
  simp [get_status]

theorem get_status_no_strip (info : InfoMap) (players : List InfoMap) :
    get_status info players false = (info, players) := by
  simp [get_status]

/-- C1: for every response whose leading delimiter-terminated header token
differs from the expected info header `"infoResponse\n"`, `get_info` fails
with the invalid-packet error — never a parsing crash and never a normal
result — and the exception message contains both the received and the
expected token. -/
theorem c1_get_info_header_mismatch (resp : List Char) (header : String)
    (rest : List Char) (b : Bool)
    (hread : read_delimited delimiter1 resp = Except.ok (header, rest))
    (hne : header ≠ info_response_header) :
    ∃ msg : String, get_info resp b = Except.error (ProtocolError.invalidPacket msg) ∧
      header.data <:+: msg.data ∧ info_response_header.data <:+: msg.data := by
  refine ⟨_, get_info_of_read_mismatch resp header rest b hread hne, ?_, ?_⟩
  · exact ⟨"Packet header mismatch. Received: ".data,
      (". Expected: " ++ info_response_header ++ ".").data,
      by simp [String.data_append, List.append_assoc]⟩
  · exact ⟨("Packet header mismatch. Received: " ++ header ++ ". Expected: ").data,
      ".".data, by simp [String.data_append, List.append_assoc]⟩

/-- Witness for C1 at scenario 3's wrong header. -/
theorem c1_get_info_header_mismatch_witness :
    ∃ msg : String,
      get_info ("wrongResponse\n\\hostname\\x".data) true =
        Except.error (ProtocolError.invalidPacket msg) ∧
      ("wrongResponse\n" : String).data <:+: msg.data ∧
      info_response_header.data <:+: msg.data :=
  c1_get_info_header_mismatch ("wrongResponse\n\\hostname\\x".data) "wrongResponse\n"
    ("hostname\\x".data) true (by decide) (by decide)

/-- C2 fails on the code: on scenario 1 the color-stripped hostname is
`"RedServer"` (the pattern removes only `"^1"` and `"^7"`), not `"Server"`,
so `get_info` does not return the claimed map. -/
theorem c2_counterexample_scenario1 :
    get_info scenario1 true ≠
        Except.ok [("hostname", "Server"), ("gametype", "ffa")] ∧
      strip_colors "^1Red^7Server" = "RedServer" :=
  ⟨by decide, by decide⟩

/-- C2 amended: on scenario 1 with the default `strip_color = true`,
`get_info` returns `{"hostname": "RedServer", "gametype": "ffa"}` — the
color-stripped hostname is exactly `"RedServer"`. -/
theorem c2_amended_scenario1 :
    get_info scenario1 true =
      Except.ok [("hostname", "RedServer"), ("gametype", "ffa")] := by
  decide

/-- C3: `strip_colors` is idempotent — stripping an already-stripped string
changes nothing. -/
theorem c3_strip_colors_idempotent (s : String) :
    strip_colors (strip_colors s) = strip_colors s :=
  congrArg String.mk (stripChars_idem s.data)

/-- C4: `strip_colors` is the identity on marker-free input — any string
with no occurrence of the caret marker followed by a character is returned
unchanged. -/
theorem c4_strip_colors_id_marker_free (s : String) (h : markerFree s.data = true) :
    strip_colors s = s :=
  congrArg String.mk (stripChars_of_noMatchAll s.data (noMatchAll_of_markerFree s.data h))

/-- Witness for C4 on a concrete marker-free string (its only caret is the
last character). -/
theorem c4_strip_colors_id_marker_free_witness :
    markerFree ("plain server^".data) = true ∧
      strip_colors "plain server^" = "plain server^" :=
  ⟨by decide, c4_strip_colors_id_marker_free "plain server^" (by decide)⟩

/-- C5: `strip_colors` removes exactly every occurrence of the marker plus
either the single following pattern-matchable character or the 7-character
`X`-plus-six extended code, in one left-to-right pass (it equals the
spec-modelled pass `stripSpec`), and it only deletes characters — the output
is a sublist of the input; as a total function it fails on no input. -/
theorem c5_strip_colors_spec_pass (s : String) :
    strip_colors s = ⟨stripSpec s.data⟩ ∧
      List.Sublist (strip_colors s).data s.data :=
  ⟨congrArg String.mk (stripChars_eq_stripSpec s.data), stripChars_sublist s.data⟩

/-- C6: scenario 1 with `strip_color = false` returns the hostname exactly
as it appeared on the wire, `"^1Red^7Server"`, with no stripping applied to
any field. -/
theorem c6_no_strip_keeps_raw :
    get_info scenario1 false =
      Except.ok [("hostname", "^1Red^7Server"), ("gametype", "ffa")] := by
  decide

/-- C7: sanitization is applied only to the known display fields.
`get_info` with stripping returns the parsed map with only `"hostname"`
sanitized (the raw parsed map when stripping is off); `get_status` with
stripping sanitizes only `"sv_hostname"` in the info block and only `"name"`
in each player; and `sanitizeField k` preserves the key list, leaves every
entry with a key other than `k` exactly as parsed, and is the identity when
`k` is absent. -/
theorem c7_sanitize_only_display_fields :
    (∀ (resp : List Char) (header : String) (rest : List Char),
      read_delimited delimiter1 resp = Except.ok (header, rest) →
      header = info_response_header →
      get_info resp true = Except.ok (sanitizeField "hostname" (parse_info rest)) ∧
      get_info resp false = Except.ok (parse_info rest)) ∧
    (∀ (info : InfoMap) (players : List InfoMap),
      get_status info players true =
        (sanitizeField "sv_hostname" info, players.map (sanitizeField "name")) ∧
      get_status info players false = (info, players)) ∧
    (∀ (k : String) (m : InfoMap),
      (sanitizeField k m).map Prod.fst = m.map Prod.fst ∧
      (sanitizeField k m).filter (fun p => !(p.1 == k)) =
        m.filter (fun p => !(p.1 == k)) ∧
      (lookupMap m k = none → sanitizeField k m = m)) := by
  refine ⟨?_, ?_, ?_⟩
  · intro resp header rest hread hh
    constructor
    · simpa using get_info_ok_shape resp true header rest hread hh
    · simpa using get_info_ok_shape resp false header rest hread hh
  · intro info players
    exact ⟨get_status_strip info players, get_status_no_strip info players⟩
  · intro k m
    exact ⟨sanitizeField_keys k m, sanitizeField_filter k m, sanitizeField_of_absent k m⟩

/-- Witness for C7 at scenario 1 and at a player record without a `"name"`
key. -/
theorem c7_sanitize_only_display_fields_witness :
    (get_info scenario1 true =
        Except.ok (sanitizeField "hostname"
          (parse_info ("hostname\\^1Red^7Server\\gametype\\ffa".data))) ∧
      get_info scenario1 false =
        Except.ok (parse_info ("hostname\\^1Red^7Server\\gametype\\ffa".data))) ∧
    sanitizeField "name" [("score", "10")] = [("score", "10")] :=
  ⟨c7_sanitize_only_display_fields.1 scenario1 "infoResponse\n"
      ("hostname\\^1Red^7Server\\gametype\\ffa".data) (by decide) (by decide),
    (c7_sanitize_only_display_fields.2.2 "name" [("score", "10")]).2.2 (by decide)⟩

/-- C8: `get_info` validates the info-specific header `"infoResponse\n"` —
rejecting any other leading token and accepting exactly it — while the
`get_status` path validates the distinct status header `"statusResponse\n"`;
the two header constants are never equal. -/
theorem c8_distinct_header_validation :
    info_response_header ≠ response_header ∧
    (∀ (resp : List Char) (header : String) (rest : List Char) (b : Bool),
      read_delimited delimiter1 resp = Except.ok (header, rest) →
      header ≠ info_response_header →
      ∃ msg, get_info resp b = Except.error (ProtocolError.invalidPacket msg)) ∧
    (∀ (resp : List Char) (rest : List Char) (b : Bool),
      read_delimited delimiter1 resp = Except.ok (info_response_header, rest) →
      ∃ m, get_info resp b = Except.ok m) ∧
    (∀ (cursor : List Char) (header : String) (rest : List Char),
      read_delimited delimiter1 cursor = Except.ok (header, rest) →
      header ≠ response_header →
      ∃ msg, validate_header cursor response_header =
        Except.error (ProtocolError.invalidPacket msg)) ∧
    (∀ (cursor : List Char) (rest : List Char),
      read_delimited delimiter1 cursor = Except.ok (response_header, rest) →
      validate_header cursor response_header = Except.ok rest) := by
  refine ⟨by decide, ?_, ?_, ?_, ?_⟩
  · intro resp header rest b hread hne
    exact ⟨_, get_info_of_read_mismatch resp header rest b hread hne⟩
  · intro resp rest b hread
    exact ⟨_, get_info_ok_shape resp b info_response_header rest hread rfl⟩
  · intro cursor header rest hread hne
    exact ⟨_, validate_header_mismatch cursor header rest response_header hread hne⟩
  · intro cursor rest hread
    exact validate_header_ok cursor rest response_header hread

/-- Witness for C8: a status-headed reply is rejected by `get_info` but
accepted on the status path, and an info-headed reply conversely. -/
theorem c8_distinct_header_validation_witness :
    (∃ msg, get_info ("statusResponse\n\\a\\b".data) true =
        Except.error (ProtocolError.invalidPacket msg)) ∧
    (∃ m, get_info scenario1 true = Except.ok m) ∧
    (∃ msg, validate_header scenario1 response_header =
        Except.error (ProtocolError.invalidPacket msg)) ∧
    validate_header ("statusResponse\n\\a\\b".data) response_header =
      Except.ok ("a\\b".data) :=
  ⟨c8_distinct_header_validation.2.1 ("statusResponse\n\\a\\b".data) "statusResponse\n"
      ("a\\b".data) true (by decide) (by decide),
    c8_distinct_header_validation.2.2.1 scenario1
      ("hostname\\^1Red^7Server\\gametype\\ffa".data) true (by decide),
    c8_distinct_header_validation.2.2.2.1 scenario1 "infoResponse\n"
      ("hostname\\^1Red^7Server\\gametype\\ffa".data) (by decide) (by decide),
    c8_distinct_header_validation.2.2.2.2 ("statusResponse\n\\a\\b".data)
      ("a\\b".data) (by decide)⟩

/-- C9 as stated fails on the code: a final caret CAN be removed, namely as
the control character of a match starting at the preceding caret —
`strip_colors "^^" = ""` even though the last character of `"^^"` is a
caret, and in `"^^\n"` the caret followed by the newline is removed too. -/
theorem c9_counterexample_consumed_trailing_caret :
    strip_colors "^^" = "" ∧ "^^".data.getLast? = some '^' ∧
      strip_colors "^^\n" = "\n" :=
  ⟨by decide, by decide, by decide⟩

/-- C9 amended: a caret that is the last character, or is immediately
followed by a newline, never begins a match (the pattern requires one
following non-newline character); it survives in the output unchanged
provided it is not itself consumed by a match starting at an earlier caret —
in particular whenever no caret precedes it in the string. -/
theorem c9_amended_trailing_caret_survives (l : List Char) (h : '^' ∉ l) :
    strip_colors ⟨l ++ ['^']⟩ = ⟨l ++ ['^']⟩ ∧
    ∀ r : List Char,
      strip_colors ⟨l ++ '^' :: '\n' :: r⟩ =
        ⟨l ++ '^' :: '\n' :: (strip_colors ⟨r⟩).data⟩ :=
  ⟨congrArg String.mk (stripChars_append_caret l h),
    fun r => congrArg String.mk (stripChars_append_caret_nl l h r)⟩

/-- Witness for C9 amended at a concrete caret-free prefix. -/
theorem c9_amended_trailing_caret_survives_witness :
    strip_colors ⟨"ab".data ++ ['^']⟩ = ⟨"ab".data ++ ['^']⟩ ∧
    strip_colors ⟨"ab".data ++ '^' :: '\n' :: "cd".data⟩ =
      ⟨"ab".data ++ '^' :: '\n' :: (strip_colors ⟨"cd".data⟩).data⟩ :=
  ⟨(c9_amended_trailing_caret_survives ("ab".data) (by decide)).1,
    (c9_amended_trailing_caret_survives ("ab".data) (by decide)).2 ("cd".data)⟩

/-- C10: the 7-character extended branch applies exactly when the marker is
followed by `X` and at least six further non-newline characters; otherwise
the single-character branch removes only the marker plus the one following
character — in particular `strip_colors "^Xab" = "ab"` and the doubled
marker `"^^"` is removed entirely. -/
theorem c10_branch_selection :
    strip_colors "^Xab" = "ab" ∧ strip_colors "^^" = "" ∧
    (∀ rest : List Char, extColor rest = true →
      stripChars ('^' :: 'X' :: rest) = stripChars (rest.drop 6)) ∧
    (∀ (d : Char) (rest : List Char), d ≠ '\n' → ¬(d = 'X' ∧ extColor rest = true) →
      stripChars ('^' :: d :: rest) = stripChars rest) := by
  refine ⟨by decide, by decide, ?_, ?_⟩
  · intro rest hext
    rw [stripChars_caret_X, if_pos hext]
  · intro d rest hd hnot
    by_cases hX : d = 'X'
    · subst hX
      have hext : ¬ extColor rest = true := fun he => hnot ⟨rfl, he⟩
      rw [stripChars_caret_X, if_neg hext]
    · exact stripChars_caret_other d rest hd hX

/-- Witness for C10's branch equations at concrete inputs. -/
theorem c10_branch_selection_witness :
    (extColor ("123456tail".data) = true ∧
      stripChars ('^' :: 'X' :: "123456tail".data) =
        stripChars (("123456tail".data).drop 6)) ∧
    (('1' : Char) ≠ '\n' ∧ ¬(('1' : Char) = 'X' ∧ extColor ("Red".data) = true) ∧
      stripChars ('^' :: '1' :: "Red".data) = stripChars ("Red".data)) :=
  ⟨⟨by decide, c10_branch_selection.2.2.1 ("123456tail".data) (by decide)⟩,
    ⟨by decide, by decide,
      c10_branch_selection.2.2.2 '1' ("Red".data) (by decide) (by decide)⟩⟩
example : strip_colors "^Xab" = "ab" := by decide
example : strip_colors "^X123456tail" = "tail" := by decide
example : strip_colors "^^" = "" := by decide
example : strip_colors "^" = "^" := by decide
example : strip_colors "a^\nb" = "a^\nb" := by decide
example : strip_colors "plain" = "plain" := by decide

end Quake3
